import Mathlib

/-!
Verification of the worker-descriptor parser, worker-pool bootstrap and
dynamic module loader of `src/src/mitsuba/mtsutil.cpp`.

The C++ code is shallowly embedded: strings are Lean `String`s, the
side-effecting bootstrap is modelled as explicit state passing over a
`BootState` record, and the collaborator calls that can fail (opening a
transport, registering a remote worker, `dlopen`/`dlsym`) are driven by
explicit failure oracles.  Exceptions are modelled by early exit with a
`failed` flag / `Option` results.
-/

namespace Mtsutil

/-- Modelled from the spec: the `tokenize(string, delim)` helper of the
mitsuba core library (not under `src/`).  It splits the string on every
character of `delim`, discarding empty fragments, so consecutive
delimiters and leading/trailing delimiters produce no tokens.
`splitChars` is the raw splitter over character lists: it cuts at every
delimiter character, keeping empty fragments. -/
def splitChars (delims : List Char) : List Char → List (List Char)
  | [] => [[]]
  | c :: cs =>
    if delims.contains c then
      [] :: splitChars delims cs
    else
      match splitChars delims cs with
      | [] => [[c]]
      | t :: ts => (c :: t) :: ts

/-- Modelled from the spec: mitsuba `tokenize` — split on each delimiter
character and drop the empty fragments. -/
def tokenize (s : String) (delims : String) : List String :=
  ((splitChars delims.toList s.toList).filter (fun t => !t.isEmpty)).map
    (fun t => String.mk t)

/-- Characters treated as whitespace by `strtol` (C locale) and by
`istream >> std::string`. -/
def isSpaceC (c : Char) : Bool :=
  c = ' ' || c = '\t' || c = '\n' || c = '\x0b' || c = '\x0c' || c = '\r'

def isDigitC (c : Char) : Bool :=
  '0' ≤ c && c ≤ '9'

/-- Model of C `strtol(s, &end_ptr, 10)`: skip leading whitespace, an
optional sign, then a maximal run of decimal digits.  Returns the parsed
value together with the number of characters consumed (the offset of
`end_ptr`); if no digits are found nothing is consumed and the value
is `0`, exactly as in C. -/
def strtol10 (s : String) : Int × Nat :=
  let cs := s.toList
  let ws := cs.takeWhile isSpaceC
  let afterWs := cs.drop ws.length
  let signInfo : Int × Nat × List Char :=
    match afterWs with
    | '-' :: r => (-1, 1, r)
    | '+' :: r => (1, 1, r)
    | r => (1, 0, r)
  let digits := signInfo.2.2.takeWhile isDigitC
  if digits.length = 0 then (0, 0)
  else (signInfo.1 * digits.foldl (fun a c => a * 10 + ((c.toNat : Int) - 48)) 0,
        ws.length + signInfo.2.1 + digits.length)

/-- Modelled from the spec: the well-known default port constant
`MTS_DEFAULT_PORT` (defined in the mitsuba core headers, outside `src/`). -/
def MTS_DEFAULT_PORT : Int := 7554

/-- A parsed worker descriptor (§3 of the spec, lines 209–231 of
`mtsutil.cpp`). -/
inductive WorkerDescriptor
  | direct (host : String) (port : Int)
  | tunnel (user : String) (host : String) (remotePath : String)
deriving Repr, DecidableEq

/-- The only host-specification error the code emits: both wrong token
counts (lines 213 and 224) and a non-numeric port (line 217) raise
`SLog(EError, "Invalid host specification ...")` with the offending raw
string. -/
inductive HostSpecError
  | invalidHostSpec (raw : String)
deriving Repr, DecidableEq

/-- Embedding of the per-descriptor parsing logic of `ubi_main`
(lines 209–231): a string without `@` is a direct connection split on
`:` into host and optional port; a string with `@` is an SSH tunnel
split on `@` and `:` into user, host and optional remote path
(default `~/mitsuba`). -/
def parseHostSpec (hostName : String) : Except HostSpecError WorkerDescriptor :=
  if hostName.toList.contains '@' = false then
    match tokenize hostName ":" with
    | [host] => .ok (.direct host MTS_DEFAULT_PORT)
    | [host, portTok] =>
      let r := strtol10 portTok
      if r.2 ≠ portTok.toList.length then .error (.invalidHostSpec hostName)
      else .ok (.direct host r.1)
    | _ => .error (.invalidHostSpec hostName)
  else
    match tokenize hostName "@:" with
    | [user, host] => .ok (.tunnel user host "~/mitsuba")
    | [user, host, path] => .ok (.tunnel user host path)
    | _ => .error (.invalidHostSpec hostName)

/-- Boolean success test for parse results. -/
def exOk : Except HostSpecError WorkerDescriptor → Bool
  | .ok _ => true
  | .error _ => false

/-! ## Worker-pool bootstrap (lines 199–248 of `mtsutil.cpp`)

The scheduler is the only mutable collaborator; we track the list of
registered worker names (in registration order), whether the scheduler
was started, the passwordless-authentication warnings emitted, and which
descriptor indices were attempted.  The collaborator calls that can
throw — constructing a `SocketStream`/`SSHStream` (transport open) and
`Scheduler::registerWorker` on a `RemoteWorker` — are driven by failure
oracles indexed by the descriptor position.  A thrown exception is
modelled by the `failed` flag, which stops the loop and skips
`scheduler->start()`. -/

/-- Observable state of the scheduler collaborator during bootstrap. -/
structure BootState where
  registered : List String
  started : Bool
  hints : List String
  attempted : List Nat
  failed : Bool
deriving Repr, DecidableEq

/-- The passwordless-authentication warning of lines 240–241
(non-Windows text). -/
def authHint : String :=
  "Please ensure that passwordless authentication is enabled (e.g. using ssh-agent - see the documentation for more information)"

/-- One iteration of the connection loop (lines 205–246): parse the
descriptor, open the transport (`new SocketStream` / `new SSHStream`,
outside the `try` block), then register the `net{i}` remote worker
inside a `try` whose handler emits `authHint` when the host string
contains `@` and re-raises. -/
def stepHost (openF regF : Nat → Bool) (h : String) (i : Nat)
    (st : BootState) : BootState :=
  let st := { st with attempted := st.attempted ++ [i] }
  match parseHostSpec h with
  | .error _ => { st with failed := true }
  | .ok _ =>
    if openF i then
      { st with failed := true }
    else if regF i then
      let st :=
        if h.toList.contains '@' then
          { st with hints := st.hints ++ [authHint] }
        else st
      { st with failed := true }
    else
      { st with registered := st.registered ++ ["net" ++ toString i] }

/-- The connection loop over the host list; an exception (the `failed`
flag) aborts the remaining iterations. -/
def connectLoop (openF regF : Nat → Bool) :
    List String → Nat → BootState → BootState
  | [], _, st => st
  | h :: rest, i, st =>
    let st1 := stepHost openF regF h i st
    if st1.failed then st1 else connectLoop openF regF rest (i + 1) st1

/-- The `wrk{i}` local workers registered by lines 200–201; the loop
`for (int i=0; i<nprocs; ++i)` performs `max nprocs 0` iterations. -/
def localNames (nprocs : Int) : List String :=
  (List.range nprocs.toNat).map (fun i => "wrk" ++ toString i)

/-- The whole assembly phase (lines 199–248): register the local
workers, run the connection loop from index 0, and call
`scheduler->start()` only if no exception was thrown. -/
def ubiAssemble (openF regF : Nat → Bool) (nprocs : Int)
    (hosts : List String) : BootState :=
  let st0 : BootState := ⟨localNames nprocs, false, [], [], false⟩
  let st1 := connectLoop openF regF hosts 0 st0
  if st1.failed then st1 else { st1 with started := true }

/-! ## Option processing, host accumulation and exit codes
(lines 118–266 and 268–348 of `mtsutil.cpp`) -/

/-- One `-s` host-file entry as read by `is >> host` (lines 153–157):
the stream extracts whitespace-separated tokens, and a token that is
empty or starts with `#` is skipped.  (Note: the code filters *tokens*,
not lines, so text following `#` on the same line still contributes.) -/
def hostFileTokens (content : String) : List String :=
  (tokenize content " \t\n\x0b\x0c\r").filter
    (fun host => !(host.length == 0 || host.toList.headD ' ' == '#'))

/-- A command-line option as dispatched by the getopt loop
(lines 137–179), in command-line appearance order; a `-s` file is
represented by its content, `none` when opening the file fails. -/
inductive Opt
  | addPath (arg : String)
  | connect (arg : String)
  | serversFile (content : Option String)
  | nodeName (arg : String)
  | procsOpt (arg : String)
  | quietOpt
  | verboseOpt
  | helpOpt
  | unknownOpt
deriving Repr, DecidableEq

/-- The configuration accumulated by the option loop (only the fields
with observable consequences: `nprocs` and the `networkHosts`
accumulator). -/
structure UbiConfig where
  nprocs : Int
  networkHosts : String
deriving Repr, DecidableEq

/-- Result of the option loop: fall through to the scheduler setup,
return 0 after printing help (`-h` and unknown options, lines 174–177),
or throw via `SLog(EError, ...)` (unopenable host file, line 151, or
unparsable processor count, line 169). -/
inductive OptOutcome
  | proceed (cfg : UbiConfig)
  | helpExit
  | fatal
deriving Repr, DecidableEq

/-- The getopt dispatch loop (lines 137–179).  `-c` appends
`";" + optarg` (line 146); `-s` appends `";" + host` for every kept
file token (lines 148–158); `-p` parses with `strtol` and throws when
characters remain (lines 166–170); `-h` and unknown options print help
and return (lines 174–177); the remaining options do not affect the
modelled state. -/
def runOpts : UbiConfig → List Opt → OptOutcome
  | cfg, [] => .proceed cfg
  | cfg, o :: rest =>
    match o with
    | .addPath _ => runOpts cfg rest
    | .connect s =>
      runOpts { cfg with networkHosts := cfg.networkHosts ++ ";" ++ s } rest
    | .serversFile none => .fatal
    | .serversFile (some content) =>
      let nh := (hostFileTokens content).foldl (fun a h => a ++ ";" ++ h) cfg.networkHosts
      runOpts { cfg with networkHosts := nh } rest
    | .nodeName _ => runOpts cfg rest
    | .procsOpt s =>
      if (strtol10 s).2 ≠ s.toList.length then .fatal
      else runOpts { cfg with nprocs := (strtol10 s).1 } rest
    | .quietOpt => runOpts cfg rest
    | .verboseOpt => runOpts cfg rest
    | .helpOpt => .helpExit
    | .unknownOpt => .helpExit

/-- Initial configuration: `nprocs = getProcessorCount()` and an empty
host accumulator (lines 123–125). -/
def initialConfig (defaultProcs : Int) : UbiConfig := ⟨defaultProcs, ""⟩

/-- The parsed worker-descriptor strings a given option list produces:
the `";"`-tokenization of the accumulated host string (line 202). -/
def parsedHostStrings (opts : List Opt) : List String :=
  match runOpts (initialConfig 0) opts with
  | .proceed cfg => tokenize cfg.networkHosts ";"
  | _ => []

/-- The descriptors contributed by a single option. -/
def optHosts : Opt → List String
  | .connect s => tokenize s ";"
  | .serversFile (some c) => (hostFileTokens c).flatMap (fun h => tokenize h ";")
  | _ => []

def emptyBoot : BootState := ⟨[], false, [], [], false⟩

/-- Embedding of `ubi_main` (lines 118–266) at the level of the exit
code and the scheduler state: `argc < 2` prints help and returns 0
(lines 130–133); help/unknown options return 0; an `SLog(EError)`
thrown anywhere (option processing or assembly) is caught by the
top-level handler (lines 259–263), which prints a diagnostic and falls
through to `return 0` (line 265); `-1` is returned only when the pool
assembled and no utility name follows the options (lines 250–253). -/
def ubiMain (fewArgs : Bool) (opts : List Opt) (utilityNameSupplied : Bool)
    (defaultProcs : Int) (openF regF : Nat → Bool) : Int × BootState :=
  if fewArgs then (0, emptyBoot)
  else
    match runOpts (initialConfig defaultProcs) opts with
    | .helpExit => (0, emptyBoot)
    | .fatal => (0, emptyBoot)
    | .proceed cfg =>
      let st := ubiAssemble openF regF cfg.nprocs (tokenize cfg.networkHosts ";")
      if st.failed then (0, st)
      else if utilityNameSupplied then (0, st)
      else (-1, st)

/-- Embedding of `main` (lines 268–348): a Xerces initialization
failure returns −1 (lines 321–327), otherwise the value of `ubi_main`
is passed through unchanged (lines 329 and 347). -/
def mainExit (xercesFails : Bool) (fewArgs : Bool) (opts : List Opt)
    (utilityNameSupplied : Bool) (defaultProcs : Int)
    (openF regF : Nat → Bool) : Int :=
  if xercesFails then -1
  else (ubiMain fewArgs opts utilityNameSupplied defaultProcs openF regF).1

/-! ## Dynamic module loader (`UtilityPlugin`, lines 47–116) -/

/-- Observable events of the loader constructor, in program order. -/
inductive LoaderEvent
  | openedModule
  | resolvedSym (sym : String)
  | resolveFailed (sym : String)
  | closedModule
  | registryRefreshed
deriving Repr, DecidableEq

/-- The platform loader collaborator: whether `dlopen`/`LoadLibrary`
succeeds, and the address `dlsym`/`GetProcAddress` returns per symbol
name (`none` models a NULL result). -/
structure LoaderEnv where
  loadOk : Bool
  resolve : String → Option Nat

def getDescriptionSym : String := "GetDescription"
def createInstanceSym : String := "CreateInstance"

/-- Embedding of `UtilityPlugin::getSymbol` (lines 84–99): look the symbol up in the
open module; a NULL result raises via `SLog(EError, ...)`. -/
def getSymbolT (env : LoaderEnv) (sym : String) :
    List LoaderEvent × Option Nat :=
  match env.resolve sym with
  | some a => ([.resolvedSym sym], some a)
  | none => ([.resolveFailed sym], none)

/-- The `UtilityPlugin` constructor (lines 53–82): open the module (a
failure raises with no handle to clean up), then resolve
`GetDescription` and `CreateInstance` — in that order — inside a `try`
whose `catch (...)` closes the module handle (`dlclose`/`FreeLibrary`)
and re-raises (lines 68–78), and refresh the class registry
(`Class::staticInitialization()`, line 81) only after both symbols
resolved.  The result pairs the event trace with the two resolved entry
points, `none` when the constructor throws. -/
def utilityPluginInit (env : LoaderEnv) :
    List LoaderEvent × Option (Nat × Nat) :=
  if env.loadOk = false then ([], none)
  else
    match getSymbolT env getDescriptionSym with
    | (e1, none) => ([LoaderEvent.openedModule] ++ e1 ++ [.closedModule], none)
    | (e1, some g) =>
      match getSymbolT env createInstanceSym with
      | (e2, none) =>
        ([LoaderEvent.openedModule] ++ e1 ++ e2 ++ [.closedModule], none)
      | (e2, some c) =>
        ([LoaderEvent.openedModule] ++ e1 ++ e2 ++ [.registryRefreshed],
          some (g, c))

example : parseHostSpec "host1" = .ok (.direct "host1" 7554) := rfl
example : parseHostSpec "host1:81" = .ok (.direct "host1" 81) := rfl
example : parseHostSpec "u@h" = .ok (.tunnel "u" "h" "~/mitsuba") := rfl
example : parseHostSpec "u@h:p" = .ok (.tunnel "u" "h" "p") := rfl
example : parseHostSpec "a:b:c" = .error (.invalidHostSpec "a:b:c") := rfl
example : parseHostSpec "h:1x" = .error (.invalidHostSpec "h:1x") := rfl
example : parseHostSpec ":" = .error (.invalidHostSpec ":") := rfl
example : tokenize ";;a;;b;" ";" = ["a", "b"] := by decide

/-- Claim C3: for every descriptor string not containing `@`, splitting on
`:` with exactly one token yields `Direct` with the default port; exactly
two tokens yields `Direct` with the integer parsed from the second token;
zero or more than two tokens fails with the invalid-host-specification
error. -/
theorem C3_parse_direct (s : String) (hAt : s.toList.contains '@' = false) :
    (∀ h, tokenize s ":" = [h] →
        parseHostSpec s = .ok (.direct h MTS_DEFAULT_PORT)) ∧
    (∀ h p, tokenize s ":" = [h, p] → (strtol10 p).2 = p.toList.length →
        parseHostSpec s = .ok (.direct h (strtol10 p).1)) ∧
    ((tokenize s ":").length = 0 ∨ 2 < (tokenize s ":").length →
        parseHostSpec s = .error (.invalidHostSpec s)) := by
  have hAt' : '@' ∉ s.data := by simpa using hAt
  refine ⟨?_, ?_, ?_⟩
  · intro h htok
    simp [parseHostSpec, hAt', htok]
  · intro h p htok hlen
    have hlen' : (strtol10 p).2 = p.length := hlen
    simp [parseHostSpec, hAt', htok, hlen']
  · intro hlen
    rcases htl : tokenize s ":" with _ | ⟨a, _ | ⟨b, _ | ⟨c, tl⟩⟩⟩
    · simp [parseHostSpec, hAt', htl]
    · rw [htl] at hlen; simp at hlen
    · rw [htl] at hlen; simp at hlen
    · simp [parseHostSpec, hAt', htl]

theorem C3_witness :
    ("host1:81").toList.contains '@' = false ∧
    parseHostSpec "host1:81" = .ok (.direct "host1" 81) :=
  ⟨by decide,
   (C3_parse_direct "host1:81" (by decide)).2.1 "host1" "81" (by decide) (by decide)⟩

/-- Claim C4: for every descriptor string containing `@`, parsing always
produces a `Tunnel` (never a `Direct`): two tokens on `@`/`:` give
`Tunnel` with the default remote path `~/mitsuba`, three tokens give
`Tunnel` with the third token as remote path, and any other token count
fails with the invalid-host-specification error. -/
theorem C4_parse_tunnel (s : String) (hAt : s.toList.contains '@' = true) :
    (∀ d, parseHostSpec s = .ok d → ∃ u h p, d = .tunnel u h p) ∧
    (∀ u h, tokenize s "@:" = [u, h] →
        parseHostSpec s = .ok (.tunnel u h "~/mitsuba")) ∧
    (∀ u h p, tokenize s "@:" = [u, h, p] →
        parseHostSpec s = .ok (.tunnel u h p)) ∧
    ((tokenize s "@:").length < 2 ∨ 3 < (tokenize s "@:").length →
        parseHostSpec s = .error (.invalidHostSpec s)) := by
  have hAt' : '@' ∈ s.data := by simpa using hAt
  refine ⟨?_, ?_, ?_, ?_⟩
  · intro d hd
    rcases htl : tokenize s "@:" with _ | ⟨a, _ | ⟨b, _ | ⟨c, _ | ⟨e, tl⟩⟩⟩⟩ <;>
      simp [parseHostSpec, hAt', htl] at hd
    · exact ⟨a, b, "~/mitsuba", hd.symm⟩
    · exact ⟨a, b, c, hd.symm⟩
  · intro u h htok
    simp [parseHostSpec, hAt', htok]
  · intro u h p htok
    simp [parseHostSpec, hAt', htok]
  · intro hlen
    rcases htl : tokenize s "@:" with _ | ⟨a, _ | ⟨b, _ | ⟨c, _ | ⟨e, tl⟩⟩⟩⟩
    · simp [parseHostSpec, hAt', htl]
    · simp [parseHostSpec, hAt', htl]
    · rw [htl] at hlen; simp at hlen
    · rw [htl] at hlen; simp at hlen
    · simp [parseHostSpec, hAt', htl]

theorem C4_witness :
    ("u@h").toList.contains '@' = true ∧
    parseHostSpec "u@h" = .ok (.tunnel "u" "h" "~/mitsuba") :=
  ⟨by decide, (C4_parse_tunnel "u@h" (by decide)).2.1 "u" "h" (by decide)⟩

/-- Claim C5 (counterexample): a `Direct` spec with a non-numeric port
token does NOT fail with a distinct `InvalidPort` error kind — the code
(line 217) raises exactly the same "Invalid host specification" error
(the `invalidHostSpec` kind) that wrong token counts raise (line 213),
as the wrong-token-count input `"h:1:2"` shows. -/
theorem C5_counterexample :
    parseHostSpec "h:1x" = .error (.invalidHostSpec "h:1x") ∧
    parseHostSpec "h:1:2" = .error (.invalidHostSpec "h:1:2") :=
  ⟨rfl, rfl⟩

/-- Claim C5 (amended): a `Direct` spec whose port token is not fully
consumed by `strtol` fails, but with the same invalid-host-specification
error used for wrong token counts (there is no distinct `InvalidPort`
error kind in the code). -/
theorem C5_amended_same_error (s h p : String)
    (hAt : s.toList.contains '@' = false)
    (htok : tokenize s ":" = [h, p])
    (hbad : (strtol10 p).2 ≠ p.toList.length) :
    parseHostSpec s = .error (.invalidHostSpec s) := by
  have hAt' : '@' ∉ s.data := by simpa using hAt
  have hbad' : ¬((strtol10 p).2 = p.length) := hbad
  simp [parseHostSpec, hAt', htok, hbad']

theorem C5_amended_witness :
    parseHostSpec "h:2x" = .error (.invalidHostSpec "h:2x") :=
  C5_amended_same_error "h:2x" "h" "2x" (by decide) (by decide) (by decide)

example :
    ubiAssemble (fun _ => false) (fun _ => false) 2 ["h1", "u@h2"] =
      ⟨["wrk0", "wrk1", "net0", "net1"], true, [], [0, 1], false⟩ := by decide

example :
    ubiAssemble (fun j => j == 1) (fun _ => false) 1 ["h1", "u@h2", "h3"] =
      ⟨["wrk0", "net0"], false, [], [0, 1], true⟩ := by decide

theorem range_shift_add (k n : Nat) :
    (List.range (n + 1)).map (fun j => k + j) =
      k :: (List.range n).map (fun j => k + 1 + j) := by
  rw [List.range_succ_eq_map, List.map_cons, List.map_map]
  congr 1
  exact List.map_congr_left (fun a _ => by simp [Function.comp]; omega)

theorem range_shift_net (k n : Nat) :
    (List.range (n + 1)).map (fun j => "net" ++ toString (k + j)) =
      ("net" ++ toString k) :: (List.range n).map
        (fun j => "net" ++ toString (k + 1 + j)) := by
  rw [List.range_succ_eq_map, List.map_cons, List.map_map]
  congr 1
  exact List.map_congr_left
    (fun a _ => congrArg (fun m => "net" ++ toString m) (by omega))

theorem exOk_exists {e : Except HostSpecError WorkerDescriptor}
    (h : exOk e = true) : ∃ d, e = .ok d := by
  cases e with
  | ok d => exact ⟨d, rfl⟩
  | error _ => simp [exOk] at h

/-- Invariant of the connection loop when every remaining descriptor
parses and neither the transport open nor the registration fails: each
host is attempted and its `net{k+j}` worker registered, in order, and
nothing else changes. -/
theorem connectLoop_ok (openF regF : Nat → Bool) (l : List String) :
    ∀ (k : Nat) (st : BootState),
      st.failed = false →
      (∀ j, j < l.length → exOk (parseHostSpec (l.getD j "")) = true ∧
          openF (k + j) = false ∧ regF (k + j) = false) →
      connectLoop openF regF l k st =
        { st with
          attempted := st.attempted ++ (List.range l.length).map (fun j => k + j),
          registered := st.registered ++
            (List.range l.length).map (fun j => "net" ++ toString (k + j)) } := by
  induction l with
  | nil =>
    intro k st _ _
    simp [connectLoop]
  | cons h rest ih =>
    intro k st hf H
    obtain ⟨hpok, hopen0, hreg0⟩ := H 0 (by simp)
    have hopen : openF k = false := hopen0
    have hreg : regF k = false := hreg0
    obtain ⟨d, hd⟩ := exOk_exists (by simpa using hpok)
    have hstep : stepHost openF regF h k st =
        { st with attempted := st.attempted ++ [k],
                  registered := st.registered ++ ["net" ++ toString k] } := by
      simp [stepHost, hd, hopen, hreg]
    rw [connectLoop, hstep]
    rw [if_neg (by simp [hf])]
    rw [ih (k + 1)
      { st with attempted := st.attempted ++ [k],
                registered := st.registered ++ ["net" ++ toString k] }
      (by simp [hf])
      (by
        intro j hj
        obtain ⟨h1, h2, h3⟩ := H (j + 1) (by simpa using Nat.succ_lt_succ hj)
        refine ⟨by simpa using h1, ?_, ?_⟩
        · rwa [show k + (j + 1) = k + 1 + j by omega] at h2
        · rwa [show k + (j + 1) = k + 1 + j by omega] at h3)]
    simp [range_shift_add, range_shift_net, List.append_assoc]

/-- Invariant of the connection loop when the first `i` descriptors
succeed and descriptor `i` fails (transport open, or registration):
the loop stops — exactly indices `k..k+i` are attempted, exactly the
`net` workers before `i` are registered, the scheduler-start flag never
changes, and the authentication hint is emitted exactly when the
failure happened at registration (not at transport open) of a host
containing `@`. -/
theorem connectLoop_fail (openF regF : Nat → Bool) (l : List String) :
    ∀ (k : Nat) (st : BootState) (i : Nat),
      st.failed = false →
      i < l.length →
      (∀ j, j < i → exOk (parseHostSpec (l.getD j "")) = true ∧
          openF (k + j) = false ∧ regF (k + j) = false) →
      exOk (parseHostSpec (l.getD i "")) = true →
      (openF (k + i) = true ∨ (openF (k + i) = false ∧ regF (k + i) = true)) →
      connectLoop openF regF l k st =
        { st with
          failed := true,
          attempted := st.attempted ++ (List.range (i + 1)).map (fun j => k + j),
          registered := st.registered ++
            (List.range i).map (fun j => "net" ++ toString (k + j)),
          hints := st.hints ++
            (if openF (k + i) = false ∧ (l.getD i "").toList.contains '@' = true
             then [authHint] else []) } := by
  induction l with
  | nil =>
    intro k st i _ hi _ _ _
    exact absurd hi (by simp)
  | cons h rest ih =>
    intro k st i hf hi hpre hok hfail
    cases i with
    | zero =>
      obtain ⟨d, hd⟩ := exOk_exists (by simpa using hok)
      rcases hfail with hopen | ⟨hopen, hreg⟩
      · have hopen' : openF k = true := hopen
        simp [connectLoop, stepHost, hd, hopen', hf]
        rfl
      · have hopen' : openF k = false := hopen
        have hreg' : regF k = true := hreg
        by_cases hc : h.toList.contains '@' = true
        · have hc' : '@' ∈ h.data := by simpa using hc
          simp [connectLoop, stepHost, hd, hopen', hreg', hc', hf]
          rfl
        · have hc' : '@' ∉ h.data := by simpa using hc
          simp [connectLoop, stepHost, hd, hopen', hreg', hc', hf]
          rfl
    | succ i' =>
      obtain ⟨hpok, hopen0, hreg0⟩ := hpre 0 (Nat.succ_pos _)
      have hopen : openF k = false := hopen0
      have hreg : regF k = false := hreg0
      obtain ⟨d, hd⟩ := exOk_exists (by simpa using hpok)
      have hstep : stepHost openF regF h k st =
          { st with attempted := st.attempted ++ [k],
                    registered := st.registered ++ ["net" ++ toString k] } := by
        simp [stepHost, hd, hopen, hreg]
      rw [connectLoop, hstep]
      rw [if_neg (by simp [hf])]
      rw [ih (k + 1)
        { st with attempted := st.attempted ++ [k],
                  registered := st.registered ++ ["net" ++ toString k] }
        i'
        (by simp [hf])
        (by simpa using Nat.lt_of_succ_lt_succ hi)
        (by
          intro j hj
          obtain ⟨h1, h2, h3⟩ := hpre (j + 1) (Nat.succ_lt_succ hj)
          refine ⟨by simpa using h1, ?_, ?_⟩
          · rwa [show k + (j + 1) = k + 1 + j by omega] at h2
          · rwa [show k + (j + 1) = k + 1 + j by omega] at h3)
        (by simpa using hok)
        (by
          rcases hfail with h1 | ⟨h1, h2⟩
          · exact Or.inl (by rwa [show k + (i' + 1) = k + 1 + i' by omega] at h1)
          · refine Or.inr ⟨?_, ?_⟩
            · rwa [show k + (i' + 1) = k + 1 + i' by omega] at h1
            · rwa [show k + (i' + 1) = k + 1 + i' by omega] at h2)]
      have hsh : k + 1 + i' = k + (i' + 1) := by omega
      simp [range_shift_add, range_shift_net, List.append_assoc, hsh]

/-- If no host string contains `@`, no authentication hint is ever
emitted, whatever fails. -/
theorem connectLoop_no_at (openF regF : Nat → Bool) (l : List String) :
    ∀ (k : Nat) (st : BootState),
      (∀ h ∈ l, h.toList.contains '@' = false) →
      (connectLoop openF regF l k st).hints = st.hints := by
  induction l with
  | nil =>
    intro k st _
    simp [connectLoop]
  | cons h rest ih =>
    intro k st H
    have hc : '@' ∉ h.data := by simpa using H h (by simp)
    have hstep : (stepHost openF regF h k st).hints = st.hints := by
      cases hp : parseHostSpec h with
      | error e => simp [stepHost, hp]
      | ok d =>
        by_cases ho : openF k
        · simp [stepHost, hp, ho]
        · by_cases hr : regF k
          · simp [stepHost, hp, ho, hr, hc]
          · simp [stepHost, hp, ho, hr]
    rw [connectLoop]
    by_cases hfl : (stepHost openF regF h k st).failed
    · rw [if_pos hfl]; exact hstep
    · rw [if_neg hfl]
      rw [ih (k + 1) _ (fun x hx => H x (by simp [hx]))]
      exact hstep

/-- Claim C1: if the first `i` descriptors assemble cleanly and
descriptor `i` fails at transport open or at worker registration, the
assembly aborts — only descriptors `0..i` were attempted, the scheduler
is never started, and everything registered before the failure (all
`wrk*` local workers and `net0..net{i-1}`) stays registered: no
rollback. -/
theorem C1_fail_fast_no_rollback (openF regF : Nat → Bool) (nprocs : Int)
    (hosts : List String) (i : Nat)
    (hi : i < hosts.length)
    (hpre : ∀ j, j < i → exOk (parseHostSpec (hosts.getD j "")) = true ∧
        openF j = false ∧ regF j = false)
    (hok : exOk (parseHostSpec (hosts.getD i "")) = true)
    (hfail : openF i = true ∨ (openF i = false ∧ regF i = true)) :
    (ubiAssemble openF regF nprocs hosts).failed = true ∧
    (ubiAssemble openF regF nprocs hosts).started = false ∧
    (ubiAssemble openF regF nprocs hosts).attempted = List.range (i + 1) ∧
    (ubiAssemble openF regF nprocs hosts).registered =
      localNames nprocs ++
        (List.range i).map (fun j => "net" ++ toString j) := by
  have hcl := connectLoop_fail openF regF hosts 0
    ⟨localNames nprocs, false, [], [], false⟩ i rfl hi
    (by
      intro j hj
      obtain ⟨h1, h2, h3⟩ := hpre j hj
      exact ⟨h1, by simpa using h2, by simpa using h3⟩)
    hok
    (by
      rcases hfail with h1 | ⟨h1, h2⟩
      · exact Or.inl (by simpa using h1)
      · exact Or.inr ⟨by simpa using h1, by simpa using h2⟩)
  rw [ubiAssemble, hcl]
  refine ⟨rfl, rfl, ?_, ?_⟩
  · simp
  · simp

theorem C1_witness :
    (ubiAssemble (fun j => decide (j = 1)) (fun _ => false) 2
        ["h1", "u@h2", "h3"]).failed = true ∧
    (ubiAssemble (fun j => decide (j = 1)) (fun _ => false) 2
        ["h1", "u@h2", "h3"]).started = false ∧
    (ubiAssemble (fun j => decide (j = 1)) (fun _ => false) 2
        ["h1", "u@h2", "h3"]).attempted = List.range 2 ∧
    (ubiAssemble (fun j => decide (j = 1)) (fun _ => false) 2
        ["h1", "u@h2", "h3"]).registered =
      localNames 2 ++ (List.range 1).map (fun j => "net" ++ toString j) :=
  C1_fail_fast_no_rollback (fun j => decide (j = 1)) (fun _ => false) 2
    ["h1", "u@h2", "h3"] 1
    (by decide)
    (by
      intro j hj
      have hj0 : j = 0 := by omega
      subst hj0
      exact ⟨by decide, by decide, rfl⟩)
    (by decide)
    (Or.inl (by decide))

/-- Claim C8: with no failures, assembly registers exactly the local
workers `wrk0..wrk{n-1}` (in increasing order) before all remote
workers, a zero or negative `localCount` registers no local workers,
the remote workers are named `net{i}` by descriptor position, and the
scheduler is started. -/
theorem C8_local_then_remote (openF regF : Nat → Bool) (nprocs : Int)
    (hosts : List String)
    (hok : ∀ j, j < hosts.length →
        exOk (parseHostSpec (hosts.getD j "")) = true ∧
        openF j = false ∧ regF j = false) :
    (ubiAssemble openF regF nprocs hosts).registered =
      localNames nprocs ++
        (List.range hosts.length).map (fun j => "net" ++ toString j) ∧
    (ubiAssemble openF regF nprocs hosts).started = true ∧
    localNames nprocs =
      (List.range nprocs.toNat).map (fun i => "wrk" ++ toString i) ∧
    (nprocs ≤ 0 → localNames nprocs = []) := by
  have hcl := connectLoop_ok openF regF hosts 0
    ⟨localNames nprocs, false, [], [], false⟩ rfl
    (by
      intro j hj
      obtain ⟨h1, h2, h3⟩ := hok j hj
      exact ⟨h1, by simpa using h2, by simpa using h3⟩)
  rw [ubiAssemble, hcl]
  refine ⟨by simp, rfl, rfl, ?_⟩
  intro hnp
  simp [localNames, Int.toNat_of_nonpos hnp]

theorem C8_witness :
    (ubiAssemble (fun _ => false) (fun _ => false) 3 []).registered =
      localNames 3 ++ (List.range 0).map (fun j => "net" ++ toString j) ∧
    (ubiAssemble (fun _ => false) (fun _ => false) 3 []).started = true ∧
    localNames 3 = (List.range (Int.toNat 3)).map (fun i => "wrk" ++ toString i) ∧
    ((3 : Int) ≤ 0 → localNames 3 = []) :=
  C8_local_then_remote (fun _ => false) (fun _ => false) 3 []
    (by intro j hj; exact absurd hj (by simp))

/-- Claim C6 (counterexample): for a `Tunnel` descriptor whose
transport open (`new SSHStream`, step (a)) fails, NO
passwordless-authentication hint is emitted, because the stream is
constructed outside the `try` block of lines 232–245 — the assembly
aborts with an empty hint list. -/
theorem C6_counterexample :
    (ubiAssemble (fun _ => true) (fun _ => false) 0 ["u@h"]).failed = true ∧
    (ubiAssemble (fun _ => true) (fun _ => false) 0 ["u@h"]).hints = [] := by
  constructor <;> rfl

/-- Claim C6 (amended): the authentication hint is emitted exactly when
the registration of the remote worker (step (b)) fails for a descriptor
containing `@`; a transport-open failure (step (a)) emits no hint even
for a `Tunnel`, and descriptors without `@` (`Direct`) never produce a
hint, whatever fails. -/
theorem C6_hint_on_register_failure_only (openF regF : Nat → Bool)
    (nprocs : Int) (hosts : List String) (i : Nat)
    (hi : i < hosts.length)
    (hpre : ∀ j, j < i → exOk (parseHostSpec (hosts.getD j "")) = true ∧
        openF j = false ∧ regF j = false)
    (hok : exOk (parseHostSpec (hosts.getD i "")) = true) :
    ((openF i = false ∧ regF i = true ∧
        (hosts.getD i "").toList.contains '@' = true) →
      (ubiAssemble openF regF nprocs hosts).hints = [authHint]) ∧
    (openF i = true →
      (ubiAssemble openF regF nprocs hosts).hints = []) ∧
    ((openF i = false ∧ regF i = true ∧
        (hosts.getD i "").toList.contains '@' = false) →
      (ubiAssemble openF regF nprocs hosts).hints = []) ∧
    ((∀ h ∈ hosts, h.toList.contains '@' = false) →
      (ubiAssemble openF regF nprocs hosts).hints = []) := by
  have hpre' : ∀ j, j < i → exOk (parseHostSpec (hosts.getD j "")) = true ∧
      openF (0 + j) = false ∧ regF (0 + j) = false := by
    intro j hj
    obtain ⟨h1, h2, h3⟩ := hpre j hj
    exact ⟨h1, by simpa using h2, by simpa using h3⟩
  refine ⟨?_, ?_, ?_, ?_⟩
  · intro ⟨ho, hr, hc⟩
    have hcl := connectLoop_fail openF regF hosts 0
      ⟨localNames nprocs, false, [], [], false⟩ i rfl hi hpre' hok
      (Or.inr ⟨by simpa using ho, by simpa using hr⟩)
    rw [ubiAssemble, hcl]
    simp
    exact ⟨ho, by simpa using hc⟩
  · intro ho
    have hcl := connectLoop_fail openF regF hosts 0
      ⟨localNames nprocs, false, [], [], false⟩ i rfl hi hpre' hok
      (Or.inl (by simpa using ho))
    rw [ubiAssemble, hcl]
    simp
    intro hfo
    exact absurd ho (by simp [hfo])
  · intro ⟨ho, hr, hc⟩
    have hcl := connectLoop_fail openF regF hosts 0
      ⟨localNames nprocs, false, [], [], false⟩ i rfl hi hpre' hok
      (Or.inr ⟨by simpa using ho, by simpa using hr⟩)
    rw [ubiAssemble, hcl]
    simp
    intro _
    simpa using hc
  · intro hno
    have hcl := connectLoop_no_at openF regF hosts 0
      ⟨localNames nprocs, false, [], [], false⟩ hno
    rw [ubiAssemble]
    by_cases hfl : (connectLoop openF regF hosts 0
        ⟨localNames nprocs, false, [], [], false⟩).failed
    · rw [if_pos hfl]; exact hcl
    · rw [if_neg hfl]; exact hcl

theorem C6_amended_witness :
    (ubiAssemble (fun _ => false) (fun _ => true) 0 ["u@h"]).hints =
      [authHint] :=
  (C6_hint_on_register_failure_only (fun _ => false) (fun _ => true) 0
      ["u@h"] 0 (by decide)
      (by intro j hj; exact absurd hj (by omega))
      (by decide)).1
    ⟨rfl, rfl, by decide⟩

example :
    parsedHostStrings [Opt.connect "a;b", Opt.serversFile (some "x\n# c\ny")] =
      ["a", "b", "x", "c", "y"] := by decide

example :
    ubiMain false [Opt.connect "h1"] true 0 (fun _ => true) (fun _ => false) =
      (0, ⟨[], false, [], [0], true⟩) := by decide

theorem splitChars_ne_nil (delims : List Char) :
    ∀ cs : List Char, splitChars delims cs ≠ [] := by
  intro cs
  cases cs with
  | nil => simp [splitChars]
  | cons c cs' =>
    by_cases hc : delims.contains c = true
    · have hc' : c ∈ delims := by simpa using hc
      simp [splitChars, hc']
    · rw [splitChars, if_neg hc]
      rcases h : splitChars delims cs' with _ | ⟨t, ts⟩ <;> simp

/-- Splitting at an interior delimiter concatenates the splits of the
two sides. -/
theorem splitChars_append (delims : List Char) (c : Char)
    (hc : delims.contains c = true) (a : List Char) :
    ∀ b : List Char,
      splitChars delims (a ++ c :: b) =
        splitChars delims a ++ splitChars delims b := by
  induction a with
  | nil =>
    intro b
    have hc' : c ∈ delims := by simpa using hc
    simp [splitChars, hc']
  | cons x a' ih =>
    intro b
    by_cases hx : delims.contains x = true
    · simp only [List.cons_append]
      rw [splitChars, if_pos hx, splitChars, if_pos hx, ih b]
      simp
    · rcases h : splitChars delims a' with _ | ⟨t, ts⟩
      · exact absurd h (splitChars_ne_nil delims a')
      · simp only [List.cons_append]
        rw [splitChars, if_neg hx, splitChars, if_neg hx, ih b, h]
        simp

/-- The `";"`-level append law for `tokenize`: a delimiter between two
accumulated pieces separates their token lists. -/
theorem tokenize_append (a b : String) :
    tokenize (a ++ ";" ++ b) ";" = tokenize a ";" ++ tokenize b ";" := by
  unfold tokenize
  have hdata : (a ++ ";" ++ b).toList = a.toList ++ ';' :: b.toList := by
    show (a ++ ";" ++ b).data = a.data ++ ';' :: b.data
    simp [String.data_append]
  rw [show (";" : String).toList = [';'] from rfl]
  rw [hdata, splitChars_append [';'] ';' (by decide) a.toList b.toList]
  simp [List.filter_append]

/-- A leading delimiter contributes nothing. -/
theorem tokenize_cons_delim (s : String) :
    tokenize (";" ++ s) ";" = tokenize s ";" := by
  rw [show ((";" ++ s : String)) = "" ++ ";" ++ s from rfl, tokenize_append]
  rfl

/-- Folding hosts into the accumulator with a `";"` prefix each time
tokenizes to the concatenation of the individual token lists. -/
theorem tokenize_foldl (hs : List String) :
    ∀ acc : String,
      tokenize (hs.foldl (fun a h => a ++ ";" ++ h) acc) ";" =
        tokenize acc ";" ++ hs.flatMap (fun h => tokenize h ";") := by
  induction hs with
  | nil => intro acc; simp
  | cons h hs' ih =>
    intro acc
    rw [List.foldl_cons, ih, tokenize_append]
    simp [List.append_assoc]

/-- If no character of the string is a delimiter, splitting keeps it
whole. -/
theorem splitChars_no_delim (delims : List Char) :
    ∀ cs : List Char, (∀ c ∈ cs, delims.contains c = false) →
      splitChars delims cs = [cs] := by
  intro cs
  induction cs with
  | nil => intro _; simp [splitChars]
  | cons c cs' ih =>
    intro H
    have hc : ¬ delims.contains c = true := by
      simpa using H c (by simp)
    rw [splitChars, if_neg hc, ih (fun x hx => H x (by simp [hx]))]

/-- A nonempty host string without `;` is a single token. -/
theorem tokenize_single (h : String) (hne : h ≠ "")
    (hs : h.toList.contains ';' = false) :
    tokenize h ";" = [h] := by
  obtain ⟨l⟩ := h
  have hmem : ';' ∉ l := by simpa using hs
  have hlne : l ≠ [] := by
    intro hl
    subst hl
    exact hne rfl
  unfold tokenize
  rw [show (";" : String).toList = [';'] from rfl]
  rw [show (String.mk l).toList = l from rfl]
  rw [splitChars_no_delim [';'] l
    (fun c hcm => by
      have hcne : c ≠ ';' := fun he => hmem (he ▸ hcm)
      simpa using hcne)]
  have hemp : (!l.isEmpty) = true := by
    rcases l with _ | ⟨c, cs⟩
    · exact absurd rfl hlne
    · rfl
  simp [hemp]

/-- The accumulated host string tokenizes to the per-option
contributions, in command-line appearance order. -/
theorem runOpts_networkHosts (opts : List Opt) :
    ∀ (c0 cfg : UbiConfig),
      runOpts c0 opts = .proceed cfg →
      tokenize cfg.networkHosts ";" =
        tokenize c0.networkHosts ";" ++ opts.flatMap optHosts := by
  induction opts with
  | nil =>
    intro c0 cfg h
    simp only [runOpts] at h
    injection h with h2
    subst h2
    simp
  | cons o rest ih =>
    intro c0 cfg h
    cases o with
    | addPath s =>
      simp only [runOpts] at h
      rw [ih _ _ h]
      simp [optHosts]
    | connect s =>
      simp only [runOpts] at h
      rw [ih _ _ h, tokenize_append]
      simp [optHosts, List.append_assoc]
    | serversFile oc =>
      cases oc with
      | none =>
        simp only [runOpts] at h
        cases h
      | some content =>
        simp only [runOpts] at h
        rw [ih _ _ h]
        rw [tokenize_foldl]
        simp [optHosts, List.append_assoc]
    | nodeName s =>
      simp only [runOpts] at h
      rw [ih _ _ h]
      simp [optHosts]
    | procsOpt s =>
      simp only [runOpts] at h
      by_cases hb : (strtol10 s).2 ≠ s.toList.length
      · rw [if_pos hb] at h; exact absurd h (by simp)
      · rw [if_neg hb] at h
        rw [ih _ _ h]
        simp [optHosts]
    | quietOpt =>
      simp only [runOpts] at h
      rw [ih _ _ h]
      simp [optHosts]
    | verboseOpt =>
      simp only [runOpts] at h
      rw [ih _ _ h]
      simp [optHosts]
    | helpOpt =>
      simp only [runOpts] at h
      cases h
    | unknownOpt =>
      simp only [runOpts] at h
      cases h

/-- A pure `-c` option list always proceeds, with the accumulator built
by the `";"`-prefixing fold. -/
theorem runOpts_connect_map (hs : List String) :
    ∀ c0 : UbiConfig,
      runOpts c0 (hs.map Opt.connect) =
        .proceed ⟨c0.nprocs, hs.foldl (fun a h => a ++ ";" ++ h) c0.networkHosts⟩ := by
  induction hs with
  | nil => intro c0; rfl
  | cons h hs' ih =>
    intro c0
    simp only [List.map_cons, List.foldl_cons, runOpts]
    rw [ih]

/-- Claim C9 (counterexample): the parsed sequence does NOT always put
command-line (`-c`) hosts before file (`-s`) hosts, and a host-file
line whose first character is `#` is NOT excluded wholesale: with the
options `-s file -c h1` where the file reads `# foo` / `h2`, the claim
predicts `[h1, h2]`, but the code reads whitespace tokens in option
order and yields `[foo, h2, h1]`. -/
theorem C9_counterexample :
    parsedHostStrings [Opt.serversFile (some "# foo\nh2"), Opt.connect "h1"] =
      ["foo", "h2", "h1"] ∧
    parsedHostStrings [Opt.serversFile (some "# foo\nh2"), Opt.connect "h1"] ≠
      ["h1", "h2"] := by
  refine ⟨rfl, ?_⟩
  decide

/-- Claim C9 (amended): the parsed descriptor sequence is the
concatenation, in command-line appearance order, of the contributions
of each option — each `-c` argument tokenized on `";"`, and each `-s`
file read as whitespace-separated tokens with empty tokens and tokens
whose first character is `#` excluded (text after `#` on the same line
still contributes), kept in file order; empty input yields the empty
sequence. -/
theorem C9_hosts_in_option_order (opts : List Opt) (d : Int)
    (cfg : UbiConfig)
    (h : runOpts (initialConfig d) opts = .proceed cfg) :
    tokenize cfg.networkHosts ";" = opts.flatMap optHosts := by
  have hmain := runOpts_networkHosts opts (initialConfig d) cfg h
  rw [show tokenize (initialConfig d).networkHosts ";" = [] from rfl] at hmain
  simpa using hmain

theorem C9_witness :
    tokenize (UbiConfig.networkHosts ⟨0, ";a;b;x;c;y"⟩) ";" =
      [Opt.connect "a;b", Opt.serversFile (some "x\n# c\ny")].flatMap optHosts :=
  C9_hosts_in_option_order
    [Opt.connect "a;b", Opt.serversFile (some "x\n# c\ny")] 0
    ⟨0, ";a;b;x;c;y"⟩ rfl

/-- Claim C10: empty fragments between `";"` delimiters — including the
leading delimiter the bootstrap prepends on every append — are silently
dropped by tokenization: they produce no descriptor and no error, so an
option list of plain `-c` descriptors parses to exactly the supplied
descriptors. -/
theorem C10_empty_fragments_dropped :
    (∀ s : String, tokenize (";" ++ s) ";" = tokenize s ";") ∧
    (∀ a b : String,
      tokenize (a ++ ";" ++ b) ";" = tokenize a ";" ++ tokenize b ";") ∧
    (∀ hosts : List String,
      (∀ h ∈ hosts, h ≠ "" ∧ h.toList.contains ';' = false) →
      parsedHostStrings (hosts.map Opt.connect) = hosts) := by
  refine ⟨tokenize_cons_delim, tokenize_append, ?_⟩
  intro hosts H
  unfold parsedHostStrings
  rw [runOpts_connect_map hosts (initialConfig 0)]
  show tokenize (hosts.foldl (fun a h => a ++ ";" ++ h) "") ";" = hosts
  rw [tokenize_foldl hosts ""]
  rw [show tokenize "" ";" = [] from rfl, List.nil_append]
  rw [List.flatMap_congr
    (fun x hx => tokenize_single x (H x hx).1 (H x hx).2)]
  simp

theorem C10_witness :
    parsedHostStrings (["a", "b"].map Opt.connect) = ["a", "b"] :=
  C10_empty_fragments_dropped.2.2 ["a", "b"] (by decide)

/-- Claim C7 (counterexample): when a fatal exception propagates to the
top level of the bootstrap (here: the transport open of the only host
fails, so the assembly aborts with `failed = true`), the process exit
status is 0, not −1 — the top-level handler of lines 259–263 prints a
diagnostic and `ubi_main` falls through to `return 0` (line 265). -/
theorem C7_counterexample :
    (ubiMain false [Opt.connect "h1"] true 0
        (fun _ => true) (fun _ => false)).2.failed = true ∧
    mainExit false false [Opt.connect "h1"] true 0
        (fun _ => true) (fun _ => false) = 0 := by
  constructor <;> rfl

/-- Claim C7 (amended): the exit status is 0 on help (`argc < 2`, `-h`,
unknown option), on normal completion, AND when a fatal exception is
caught by the top-level handler of the bootstrap (which prints a diagnostic
and returns 0); it is −1 exactly when XML-platform initialization fails
in `main`, or when the pool assembles and no utility name is
supplied. -/
theorem C7_exit_codes (xF fewArgs : Bool) (opts : List Opt) (u : Bool)
    (d : Int) (openF regF : Nat → Bool) :
    (xF = true → mainExit xF fewArgs opts u d openF regF = -1) ∧
    (xF = false → fewArgs = true →
      mainExit xF fewArgs opts u d openF regF = 0) ∧
    (xF = false → fewArgs = false →
      runOpts (initialConfig d) opts = .helpExit →
      mainExit xF fewArgs opts u d openF regF = 0) ∧
    (xF = false → fewArgs = false →
      runOpts (initialConfig d) opts = .fatal →
      mainExit xF fewArgs opts u d openF regF = 0) ∧
    (∀ cfg, xF = false → fewArgs = false →
      runOpts (initialConfig d) opts = .proceed cfg →
      (ubiAssemble openF regF cfg.nprocs
        (tokenize cfg.networkHosts ";")).failed = true →
      mainExit xF fewArgs opts u d openF regF = 0) ∧
    (∀ cfg, xF = false → fewArgs = false →
      runOpts (initialConfig d) opts = .proceed cfg →
      (ubiAssemble openF regF cfg.nprocs
        (tokenize cfg.networkHosts ";")).failed = false →
      u = true →
      mainExit xF fewArgs opts u d openF regF = 0) ∧
    (∀ cfg, xF = false → fewArgs = false →
      runOpts (initialConfig d) opts = .proceed cfg →
      (ubiAssemble openF regF cfg.nprocs
        (tokenize cfg.networkHosts ";")).failed = false →
      u = false →
      mainExit xF fewArgs opts u d openF regF = -1) := by
  refine ⟨?_, ?_, ?_, ?_, ?_, ?_, ?_⟩
  · intro hx
    simp [mainExit, hx]
  · intro hx hf
    simp [mainExit, ubiMain, hx, hf]
  · intro hx hf hro
    simp [mainExit, ubiMain, hx, hf, hro]
  · intro hx hf hro
    simp [mainExit, ubiMain, hx, hf, hro]
  · intro cfg hx hf hro hfl
    simp [mainExit, ubiMain, hx, hf, hro, hfl]
  · intro cfg hx hf hro hfl hu
    simp [mainExit, ubiMain, hx, hf, hro, hfl, hu]
  · intro cfg hx hf hro hfl hu
    simp [mainExit, ubiMain, hx, hf, hro, hfl, hu]

theorem C7_witness :
    mainExit false false [] false 0 (fun _ => false) (fun _ => false) = -1 :=
  (C7_exit_codes false false [] false 0
      (fun _ => false) (fun _ => false)).2.2.2.2.2.2
    ⟨0, ""⟩ rfl rfl rfl rfl rfl

/-- Claim C2: the constructor resolves the description accessor and then
the instance factory, in that order; if either resolution fails the open
handle is closed before the error propagates (so the handle cannot
leak and no partially valid handle escapes), and the class-registry
refresh happens only on the all-symbols-resolved success path. -/
theorem C2_loader_rollback (env : LoaderEnv) (hload : env.loadOk = true) :
    (env.resolve getDescriptionSym = none →
      utilityPluginInit env =
        ([.openedModule, .resolveFailed getDescriptionSym, .closedModule],
          none)) ∧
    (∀ g, env.resolve getDescriptionSym = some g →
      env.resolve createInstanceSym = none →
      utilityPluginInit env =
        ([.openedModule, .resolvedSym getDescriptionSym,
          .resolveFailed createInstanceSym, .closedModule], none)) ∧
    (∀ g c, env.resolve getDescriptionSym = some g →
      env.resolve createInstanceSym = some c →
      utilityPluginInit env =
        ([.openedModule, .resolvedSym getDescriptionSym,
          .resolvedSym createInstanceSym, .registryRefreshed],
          some (g, c))) ∧
    ((utilityPluginInit env).2 = none →
      LoaderEvent.registryRefreshed ∉ (utilityPluginInit env).1 ∧
      LoaderEvent.closedModule ∈ (utilityPluginInit env).1) ∧
    ((utilityPluginInit env).2 ≠ none →
      LoaderEvent.closedModule ∉ (utilityPluginInit env).1 ∧
      LoaderEvent.registryRefreshed ∈ (utilityPluginInit env).1) := by
  refine ⟨?_, ?_, ?_, ?_, ?_⟩
  · intro hg
    simp [utilityPluginInit, getSymbolT, hload, hg]
  · intro g hg hc
    simp [utilityPluginInit, getSymbolT, hload, hg, hc]
  · intro g c hg hc
    simp [utilityPluginInit, getSymbolT, hload, hg, hc]
  · intro hnone
    rcases hg : env.resolve getDescriptionSym with _ | g
    · simp [utilityPluginInit, getSymbolT, hload, hg]
    · rcases hc : env.resolve createInstanceSym with _ | c
      · simp [utilityPluginInit, getSymbolT, hload, hg, hc]
      · rw [show (utilityPluginInit env).2 =
            some (g, c) by simp [utilityPluginInit, getSymbolT, hload, hg, hc]]
          at hnone
        cases hnone
  · intro hsome
    rcases hg : env.resolve getDescriptionSym with _ | g
    · rw [show (utilityPluginInit env).2 =
          none by simp [utilityPluginInit, getSymbolT, hload, hg]] at hsome
      exact absurd rfl hsome
    · rcases hc : env.resolve createInstanceSym with _ | c
      · rw [show (utilityPluginInit env).2 =
            none by simp [utilityPluginInit, getSymbolT, hload, hg, hc]]
          at hsome
        exact absurd rfl hsome
      · simp [utilityPluginInit, getSymbolT, hload, hg, hc]

theorem C2_witness :
    utilityPluginInit ⟨true, fun _ => none⟩ =
      ([.openedModule, .resolveFailed getDescriptionSym, .closedModule],
        none) :=
  (C2_loader_rollback ⟨true, fun _ => none⟩ rfl).1 rfl

end Mtsutil
